import Mathlib

/-! # Matrix multiplication benchmark: `MatrixUtils`

A shallow embedding of `lab1/matrix_multiplication/src/matrix_multiplier.cpp`.

* `Matrix` is `std::vector<std::vector<double>>`, a list of rows.
* Subscripting a vector outside its bounds is undefined behaviour in C++; here every
  subscript is checked and the embedded function yields `none` when one is out of range.
  A result `some _` therefore also says that no out-of-range subscript was evaluated.
* A `for` loop over `0 .. n-1` that mutates the local matrix `C` is a monadic left fold
  over `List.range n` that threads `C` through.
* The entry type is a parameter of every routine. The multiplication routines need a
  zero, an addition and a multiplication; the comparison routines need a subtraction,
  `std::abs`, the test `<` and the literal `1e-8`. No law is assumed of these operations.
* Two entry types are provided. `Double` is the type `double` of the source: IEEE 754
  binary64 with infinities, NaN, round-to-nearest-even, gradual underflow and overflow.
  The rationals are the entries read as exact numbers.
* An output parameter (`double& max_diff`) is an extra argument (the value on entry)
  and an extra component of the result (the value on exit).
-/

namespace MatrixUtils

/-- The type `Matrix` of the header: a vector of rows. -/
abbrev Matrix (α : Type) := List (List α)

variable {α : Type}

/-- The read `M[i][j]`; `none` when a subscript is out of range. -/
def readCell (M : Matrix α) (i j : Nat) : Option α :=
  match M[i]? with
  | none => none
  | some row => row[j]?

/-- The assignment `M[i][j] = v`; `none` when a subscript is out of range. -/
def writeCell (M : Matrix α) (i j : Nat) (v : α) : Option (Matrix α) :=
  match M[i]? with
  | none => none
  | some row => if j < row.length then some (M.set i (row.set j v)) else none

/-- The constructor call `Matrix C(n, std::vector<double>(n, 0.0))`. -/
def zeroMatrix [Zero α] (n : Nat) : Matrix α :=
  List.replicate n (List.replicate n 0)

/-- The function `MatrixUtils::multiplyMatrices`: the (i, k, j) loop nest with the hoisted
scalar `aik`, accumulating into `C[i][j]` in place. -/
def multiplyMatrices [Zero α] [Add α] [Mul α] (A B : Matrix α) : Option (Matrix α) :=
  let n := A.length
  (List.range n).foldlM (fun C i =>
    (List.range n).foldlM (fun C k => do
      let aik ← readCell A i k
      (List.range n).foldlM (fun C j => do
        let cij ← readCell C i j
        let bkj ← readCell B k j
        writeCell C i j (cij + aik * bkj)) C) C) (zeroMatrix n)

/-- The innermost loop of the OpenMP branch: the private accumulator `sum`, started at
`0.0` and updated by `sum += A[i][k] * B[k][j]` for `k = 0 .. n-1`. -/
def cellSum [Zero α] [Add α] [Mul α] (A B : Matrix α) (n i j : Nat) : Option α :=
  (List.range n).foldlM (fun sum k => do
    let aik ← readCell A i k
    let bkj ← readCell B k j
    pure (sum + aik * bkj)) 0

/-- The function `MatrixUtils::multiplyMatricesParallel`. The flag `openmp` is the
preprocessor test `#ifdef _OPENMP`. With it set, the collapsed (i, j) loop is run in
program order (its serial elision); without it, the sequential routine is called.
The loop counters are `long long` in the source; a vector's size is far below `2^63`,
so the casts of `n` do not change it. -/
def multiplyMatricesParallel [Zero α] [Add α] [Mul α] (openmp : Bool) (A B : Matrix α) :
    Option (Matrix α) :=
  let n := A.length
  if openmp then
    (List.range n).foldlM (fun C i =>
      (List.range n).foldlM (fun C j => do
        let sum ← cellSum A B n i j
        writeCell C i j sum) C) (zeroMatrix n)
  else
    multiplyMatrices A B

/-- The function `std::abs` on the entry type. -/
class StdAbs (α : Type) where
  abs : α → α

/-- The function `std::max`: `std::max(a, b)` is `(a < b) ? b : a`. -/
def stdMax [LT α] [∀ a b : α, Decidable (a < b)] (a b : α) : α :=
  if a < b then b else a

/-- The inner loop of `compareMatrices` over the remaining columns `js` of row `i`.
The result is `(false, max_diff)` after the early `return false`, and
`(true, max_diff)` when the columns are exhausted. -/
def compareRow [Sub α] [StdAbs α] [LT α] [∀ a b : α, Decidable (a < b)]
    (C1 C2 : Matrix α) (tolerance : α) (i : Nat) :
    List Nat → α → Option (Bool × α)
  | [], max_diff => some (true, max_diff)
  | j :: js, max_diff => do
    let c1 ← readCell C1 i j
    let c2 ← readCell C2 i j
    let diff := StdAbs.abs (c1 - c2)
    let max_diff := stdMax max_diff diff
    if diff > tolerance then some (false, max_diff)
    else compareRow C1 C2 tolerance i js max_diff

/-- The outer loop of `compareMatrices` over the remaining rows; a `return false` of the
inner loop leaves the function. -/
def compareRows [Sub α] [StdAbs α] [LT α] [∀ a b : α, Decidable (a < b)]
    (C1 C2 : Matrix α) (tolerance : α) (n : Nat) :
    List Nat → α → Option (Bool × α)
  | [], max_diff => some (true, max_diff)
  | i :: rest, max_diff => do
    let r ← compareRow C1 C2 tolerance i (List.range n) max_diff
    if r.1 then compareRows C1 C2 tolerance n rest r.2 else some (false, r.2)

/-- The function `MatrixUtils::compareMatrices`. The argument `max_diff` is the value of
the reference parameter on entry, the second component of the result its value on
exit. -/
def compareMatrices [Zero α] [Sub α] [StdAbs α] [LT α] [∀ a b : α, Decidable (a < b)]
    (C1 C2 : Matrix α) (tolerance : α) (max_diff : α) : Option (Bool × α) :=
  let n := C1.length
  if n ≠ C2.length then some (false, max_diff)
  else compareRows C1 C2 tolerance n (List.range n) 0

/-- The function `MatrixUtils::verifyResult`, with its literal tolerance `1e-8`. -/
def verifyResult [Zero α] [Add α] [Mul α] [Sub α] [StdAbs α] [LT α]
    [∀ a b : α, Decidable (a < b)] [OfScientific α]
    (A B C : Matrix α) (max_diff : α) : Option (Bool × α) := do
  let expected ← multiplyMatrices A B
  compareMatrices C expected 1e-8 max_diff

/-! ## The entry types

The type `double` of the source, and the rationals as its exact-number reading. The two
zeros of binary64 are identified: the program has no operation that tells them apart
(no division, no sign test, and comparisons treat them as equal). -/

/-- The values of the type `double` (IEEE 754 binary64): a finite value, an infinity with
its sign, or NaN. -/
inductive Double where
  | finite (value : ℚ)
  | infinity (negative : Bool)
  | nan
deriving DecidableEq

namespace Double

/-- The number of halvings that bring `n` below `2`, at most `fuel` of them. -/
def halvings : Nat → Nat → Nat
  | 0, _ => 0
  | fuel + 1, n => if n < 2 then 0 else halvings fuel (n / 2) + 1

/-- The position of the leading bit of `n`: the `e` with `2^e <= n < 2^(e+1)`, for
positive `n`. -/
def leadingBit (n : Nat) : Nat := halvings n n

/-- The exponent `e` with `2^e <= p/d < 2^(e+1)`, for positive `p` and `d`. -/
def exponent (p d : Nat) : Int :=
  let e0 : Int := (leadingBit p : Int) - (leadingBit d : Int)
  if e0 ≥ 0 then
    if 2 ^ e0.toNat * d ≤ p then e0 else e0 - 1
  else
    if d ≤ p * 2 ^ (-e0).toNat then e0 else e0 - 1

/-- Rounding of an exact result to the nearest `double`, ties to even: 53 significant
bits, gradual underflow below `2^-1022`, overflow to infinity from `2^1024`. -/
def round (q : ℚ) : Double :=
  if q = 0 then finite 0
  else
    let p := q.num.natAbs
    let d := q.den
    let s : Int := max (exponent p d) (-1022) - 52
    let num := if s ≥ 0 then p else p * 2 ^ (-s).toNat
    let den := if s ≥ 0 then d * 2 ^ s.toNat else d
    let f := num / den
    let r := num % den
    let m := if 2 * r < den then f else if den < 2 * r then f + 1
      else if f % 2 = 0 then f else f + 1
    if s ≥ 0 then
      if 2 ^ 1024 ≤ m * 2 ^ s.toNat then infinity (decide (q < 0))
      else finite (if q < 0 then -((m * 2 ^ s.toNat : Nat) : ℚ) else ((m * 2 ^ s.toNat : Nat) : ℚ))
    else
      finite (if q < 0 then -(mkRat m (2 ^ (-s).toNat)) else mkRat m (2 ^ (-s).toNat))

/-- Negation. -/
def neg : Double → Double
  | finite a => finite (-a)
  | infinity s => infinity (!s)
  | nan => nan

/-- Addition: the rounded exact sum; opposite infinities give NaN. -/
def add : Double → Double → Double
  | finite a, finite b => round (a + b)
  | finite _, infinity s => infinity s
  | infinity s, finite _ => infinity s
  | infinity s, infinity t => if s = t then infinity s else nan
  | _, _ => nan

/-- Multiplication: the rounded exact product; zero times infinity gives NaN. -/
def mul : Double → Double → Double
  | finite a, finite b => round (a * b)
  | finite a, infinity s => if a = 0 then nan else infinity (s != decide (a < 0))
  | infinity s, finite b => if b = 0 then nan else infinity (s != decide (b < 0))
  | infinity s, infinity t => infinity (s != t)
  | _, _ => nan

/-- The absolute value. -/
def abs : Double → Double
  | finite a => finite |a|
  | infinity _ => infinity false
  | nan => nan

/-- The comparison `a < b`: false whenever an operand is NaN. -/
def lt : Double → Double → Bool
  | finite a, finite b => decide (a < b)
  | finite _, infinity s => !s
  | infinity s, finite _ => s
  | infinity s, infinity t => s && !t
  | _, _ => false

/-- The comparison `a <= b`: false whenever an operand is NaN. -/
def le : Double → Double → Bool
  | finite a, finite b => decide (a ≤ b)
  | finite _, infinity s => !s
  | infinity s, finite _ => s
  | infinity s, infinity t => s || !t
  | _, _ => false

/-- Whether a value is neither an infinity nor NaN. -/
def isFinite : Double → Bool
  | finite _ => true
  | _ => false

/-- Whether a value is NaN. -/
def isNaN : Double → Bool
  | nan => true
  | _ => false

instance : Zero Double := ⟨finite 0⟩

instance : Add Double := ⟨add⟩

instance : Mul Double := ⟨mul⟩

instance : Sub Double := ⟨fun a b => add a (neg b)⟩

instance : StdAbs Double := ⟨abs⟩

instance : LT Double := ⟨fun a b => lt a b = true⟩

instance : LE Double := ⟨fun a b => le a b = true⟩

instance (a b : Double) : Decidable (a < b) := inferInstanceAs (Decidable (lt a b = true))

instance (a b : Double) : Decidable (a ≤ b) := inferInstanceAs (Decidable (le a b = true))

/-- A decimal literal denotes the nearest `double`. -/
instance : OfScientific Double :=
  ⟨fun m s e => round (if s then mkRat m (10 ^ e) else ((m * 10 ^ e : Nat) : ℚ))⟩

end Double

/-- The function `std::abs` on exact numbers. -/
instance : StdAbs ℚ := ⟨fun x => |x|⟩

/-! ## The parallel loop as interleaved iterations

The directive `#pragma omp parallel for collapse(2) schedule(dynamic)` hands the `n * n`
iterations `(i, j)` of the collapsed loop to worker threads. The variables `sum` and `k`
are declared inside the loop body, so each iteration has its own; `A`, `B` and `C` are
shared. An execution is modelled as a schedule: the list of the iterations in the order in
which they take their next step, where one step is one pass of the `k` loop or the final
store `C[i][j] = sum`. -/

/-- The `n`-by-`n` matrix whose cell `(i, j)` is `f i j`. -/
def build (n : Nat) (f : Nat → Nat → α) : Matrix α :=
  (List.range n).map (fun i => (List.range n).map (fun j => f i j))

/-- The private variables of one iteration of the collapsed loop: the counter `k`, the
accumulator `sum`, and whether the store `C[i][j] = sum` has been executed. -/
structure Iteration (α : Type) where
  k : Nat
  sum : α
  stored : Bool
deriving DecidableEq

/-- The shared output matrix `C` and the private variables of every iteration. -/
structure ParallelState (α : Type) where
  C : Matrix α
  iterations : Matrix (Iteration α)
deriving DecidableEq

/-- The state on entry to the parallel region: `C` is all zero, every iteration is at
`sum = 0.0`, `k = 0`. -/
def initialState [Zero α] (n : Nat) : ParallelState α :=
  { C := zeroMatrix n
    iterations := build n (fun _ _ => { k := 0, sum := 0, stored := false }) }

/-- One step of iteration `(i, j)`: while `k < n`, the pass `sum += A[i][k] * B[k][j]; ++k`
on its private variables; then the store `C[i][j] = sum`. An iteration outside the
iteration space, or one that has already stored, has no step (`none`). -/
def stepIteration [Add α] [Mul α] (A B : Matrix α) (n : Nat) (st : ParallelState α)
    (i j : Nat) : Option (ParallelState α) := do
  let t ← readCell st.iterations i j
  if t.stored then none
  else if t.k < n then do
    let aik ← readCell A i t.k
    let bkj ← readCell B t.k j
    let iterations ← writeCell st.iterations i j
      { k := t.k + 1, sum := t.sum + aik * bkj, stored := false }
    pure { C := st.C, iterations := iterations }
  else do
    let C ← writeCell st.C i j t.sum
    let iterations ← writeCell st.iterations i j { k := t.k, sum := t.sum, stored := true }
    pure { C := C, iterations := iterations }

/-- The execution of a schedule from a state. -/
def runSchedule [Add α] [Mul α] (A B : Matrix α) (n : Nat) (schedule : List (Nat × Nat))
    (st : ParallelState α) : Option (ParallelState α) :=
  schedule.foldlM (fun st p => stepIteration A B n st p.1 p.2) st

/-! ## Vocabulary of the statements -/

/-- A matrix with `n` rows of `n` entries each. -/
def IsSquare (n : Nat) (M : Matrix α) : Prop :=
  M.length = n ∧ ∀ row ∈ M, row.length = n

instance (n : Nat) (M : Matrix α) : Decidable (IsSquare n M) := by
  unfold IsSquare; infer_instance

/-- The entry `M[i][j]` of a matrix as a value (`0` outside the matrix). -/
def entry [Zero α] (M : Matrix α) (i j : Nat) : α :=
  (readCell M i j).getD 0

/-- The left-to-right accumulation `((init + a i 0 * b 0 j) + a i 1 * b 1 j) + ...` over
`k = 0 .. m-1`, on entries given as functions of their indices. -/
def accumulate [Add α] [Mul α] (a b : Nat → Nat → α) (m i j : Nat) (init : α) : α :=
  (List.range m).foldl (fun sum k => sum + a i k * b k j) init

/-- The state in which iteration `(i, j)` has taken `steps i j` of its `n + 1` steps, on
entries given as functions of their indices. -/
def stateAfter [Zero α] [Add α] [Mul α] (a b : Nat → Nat → α) (n : Nat)
    (steps : Nat → Nat → Nat) : ParallelState α :=
  { C := build n (fun i j => if steps i j = n + 1 then accumulate a b n i j 0 else 0)
    iterations := build n (fun i j =>
      { k := min (steps i j) n
        sum := accumulate a b (min (steps i j) n) i j 0
        stored := decide (steps i j = n + 1) }) }

/-- The `n`-by-`n` identity matrix. -/
def identityMatrix [Zero α] [One α] (n : Nat) : Matrix α :=
  build n (fun i j => if i = j then 1 else 0)

/-! ## Matrices given by their entries -/

theorem build_length (n : Nat) (f : Nat → Nat → α) : (build n f).length = n := by
  simp [build]

theorem build_getElem? (n : Nat) (f : Nat → Nat → α) (i : Nat) (hi : i < n) :
    (build n f)[i]? = some ((List.range n).map (fun j => f i j)) := by
  simp [build, List.getElem?_map, List.getElem?_range hi]

theorem readCell_build (n : Nat) (f : Nat → Nat → α) (i j : Nat) (hi : i < n) (hj : j < n) :
    readCell (build n f) i j = some (f i j) := by
  simp [readCell, build_getElem? n f i hi, List.getElem?_map, List.getElem?_range hj]

theorem build_congr (n : Nat) (f g : Nat → Nat → α)
    (h : ∀ i j, i < n → j < n → f i j = g i j) : build n f = build n g := by
  unfold build
  apply List.map_congr_left
  intro i hi
  apply List.map_congr_left
  intro j hj
  exact h i j (List.mem_range.1 hi) (List.mem_range.1 hj)

theorem writeCell_build (n : Nat) (f : Nat → Nat → α) (i j : Nat) (v : α)
    (hi : i < n) (hj : j < n) :
    writeCell (build n f) i j v
      = some (build n (fun a b => if a = i ∧ b = j then v else f a b)) := by
  simp only [writeCell, build_getElem? n f i hi, List.length_map, List.length_range, hj,
    if_true, Option.some.injEq]
  apply List.ext_getElem
  · simp [build]
  · intro a h1 h2
    have ha : a < n := by simpa [build] using h2
    simp only [build, List.getElem_set, List.getElem_map, List.getElem_range]
    by_cases hai : i = a
    · subst hai
      simp only [if_true]
      apply List.ext_getElem
      · simp
      · intro b h3 h4
        simp only [List.getElem_set, List.getElem_map, List.getElem_range]
        by_cases hbj : j = b
        · subst hbj; simp
        · have : ¬ b = j := fun h => hbj h.symm
          simp [hbj, this]
    · have : ¬ a = i := fun h => hai h.symm
      simp [hai, this]

theorem zeroMatrix_eq_build [Zero α] (n : Nat) :
    (zeroMatrix n : Matrix α) = build n (fun _ _ => 0) := by
  unfold zeroMatrix build
  apply List.ext_getElem
  · simp
  · intro a h1 h2
    simp only [List.getElem_replicate, List.getElem_map]
    apply List.ext_getElem
    · simp
    · intro b h3 h4
      simp

theorem isSquare_build (n : Nat) (f : Nat → Nat → α) : IsSquare n (build n f) := by
  refine ⟨build_length n f, ?_⟩
  intro row hrow
  simp only [build, List.mem_map] at hrow
  obtain ⟨i, _, rfl⟩ := hrow
  simp

theorem entry_build [Zero α] (n : Nat) (f : Nat → Nat → α) (i j : Nat)
    (hi : i < n) (hj : j < n) : entry (build n f) i j = f i j := by
  simp [entry, readCell_build n f i j hi hj]

theorem readCell_of_isSquare [Zero α] (n : Nat) (M : Matrix α) (h : IsSquare n M)
    (i j : Nat) (hi : i < n) (hj : j < n) : readCell M i j = some (entry M i j) := by
  obtain ⟨hlen, hrows⟩ := h
  have hi2 : i < M.length := by omega
  have hrow : (M[i]).length = n := hrows _ (List.getElem_mem _)
  have hj2 : j < (M[i]).length := by omega
  simp [entry, readCell, List.getElem?_eq_getElem hi2, List.getElem?_eq_getElem hj2]

theorem eq_build_of_isSquare [Zero α] (n : Nat) (M : Matrix α) (h : IsSquare n M) :
    M = build n (entry M) := by
  have h0 := h
  obtain ⟨hlen, hrows⟩ := h
  apply List.ext_getElem
  · simp [build, hlen]
  · intro i h1 h2
    have hi : i < n := by omega
    have hrow : (M[i]).length = n := hrows _ (List.getElem_mem _)
    simp only [build, List.getElem_map, List.getElem_range]
    apply List.ext_getElem
    · simp [hrow]
    · intro j h3 h4
      have hj : j < n := by omega
      have := readCell_of_isSquare n M h0 i j hi hj
      simp only [readCell, List.getElem?_eq_getElem h1, List.getElem?_eq_getElem h3] at this
      simp only [List.getElem_map, List.getElem_range]
      exact Option.some.inj this

/-! ## The loops of the two multiplication routines -/

theorem foldlM_range_succ {β : Type} (f : β → Nat → Option β) (m : Nat) (init : β) :
    (List.range (m + 1)).foldlM f init = ((List.range m).foldlM f init).bind (fun s => f s m) := by
  rw [List.range_succ, List.foldlM_append]
  cases h : List.foldlM f init (List.range m) <;> simp [h]

theorem bind_some_eq {β γ : Type} (x : β) (f : β → Option γ) : (some x >>= f) = f x := rfl

theorem accumulate_succ [Add α] [Mul α] (a b : Nat → Nat → α) (m i j : Nat) (init : α) :
    accumulate a b (m + 1) i j init = accumulate a b m i j init + a i m * b m j := by
  simp [accumulate, List.range_succ]

theorem accumulate_zero [Add α] [Mul α] (a b : Nat → Nat → α) (i j : Nat) (init : α) :
    accumulate a b 0 i j init = init := by
  simp [accumulate]

/-- The innermost loop of `multiplyMatrices`, run for `j = 0 .. m-1`. -/
theorem inner_loop [Zero α] [Add α] [Mul α] (n : Nat) (f b : Nat → Nat → α) (aik : α)
    (i k : Nat) (hi : i < n) (hk : k < n) (m : Nat) (hm : m ≤ n) :
    (List.range m).foldlM (fun C j => do
        let cij ← readCell C i j
        let bkj ← readCell (build n b) k j
        writeCell C i j (cij + aik * bkj)) (build n f)
      = some (build n (fun r c => if r = i ∧ c < m then f r c + aik * b k c else f r c)) := by
  induction m with
  | zero => simp
  | succ m ih =>
    have hm2 : m < n := by omega
    rw [foldlM_range_succ, ih (by omega)]
    simp only [Option.bind_eq_bind, Option.some_bind, readCell_build n _ i m hi hm2,
      readCell_build n b k m hk hm2, writeCell_build n _ i m _ hi hm2]
    congr 1
    apply build_congr
    intro r c hr hc
    by_cases h1 : r = i
    · by_cases h2 : c = m
      · subst h1; subst h2; simp
      · have h3 : c < m + 1 ↔ c < m := by omega
        simp [h1, h2, h3]
    · simp [h1]

/-- The middle loop of `multiplyMatrices`, run for `k = 0 .. m-1`. -/
theorem middle_loop [Zero α] [Add α] [Mul α] (n : Nat) (f a b : Nat → Nat → α)
    (i : Nat) (hi : i < n) (m : Nat) (hm : m ≤ n) :
    (List.range m).foldlM (fun C k => do
        let aik ← readCell (build n a) i k
        (List.range n).foldlM (fun C j => do
          let cij ← readCell C i j
          let bkj ← readCell (build n b) k j
          writeCell C i j (cij + aik * bkj)) C) (build n f)
      = some (build n (fun r c => if r = i then accumulate a b m i c (f r c) else f r c)) := by
  induction m with
  | zero =>
    simp only [List.range_zero, List.foldlM_nil, accumulate_zero]
    congr 1
    apply build_congr
    intro r c _ _
    simp
  | succ m ih =>
    have hm2 : m < n := by omega
    rw [foldlM_range_succ, ih (by omega)]
    simp only [Option.some_bind, readCell_build n a i m hi hm2, bind_some_eq]
    rw [inner_loop n _ b (a i m) i m hi hm2 n (Nat.le_refl n)]
    congr 1
    apply build_congr
    intro r c hr hc
    by_cases h1 : r = i
    · subst h1; simp [hc, accumulate_succ]
    · simp [h1]

/-- The outer loop of `multiplyMatrices`, run for `i = 0 .. m-1`. -/
theorem outer_loop [Zero α] [Add α] [Mul α] (n : Nat) (f a b : Nat → Nat → α)
    (m : Nat) (hm : m ≤ n) :
    (List.range m).foldlM (fun C i =>
        (List.range n).foldlM (fun C k => do
          let aik ← readCell (build n a) i k
          (List.range n).foldlM (fun C j => do
            let cij ← readCell C i j
            let bkj ← readCell (build n b) k j
            writeCell C i j (cij + aik * bkj)) C) C) (build n f)
      = some (build n (fun r c => if r < m then accumulate a b n r c (f r c) else f r c)) := by
  induction m with
  | zero => simp
  | succ m ih =>
    have hm2 : m < n := by omega
    rw [foldlM_range_succ, ih (by omega)]
    simp only [Option.some_bind]
    rw [middle_loop n _ a b m hm2 n (Nat.le_refl n)]
    congr 1
    apply build_congr
    intro r c hr hc
    by_cases h1 : r = m
    · subst h1; simp
    · by_cases h2 : r < m
      · have : r < m + 1 := by omega
        simp [h1, h2, this]
      · have : ¬ r < m + 1 := by omega
        simp [h1, h2, this]

/-- The sequential routine on matrices given by their entries. -/
theorem multiplyMatrices_build [Zero α] [Add α] [Mul α] (n : Nat) (a b : Nat → Nat → α) :
    multiplyMatrices (build n a) (build n b)
      = some (build n (fun i j => accumulate a b n i j 0)) := by
  unfold multiplyMatrices
  simp only [build_length, zeroMatrix_eq_build]
  rw [outer_loop n _ a b n (Nat.le_refl n)]
  congr 1
  apply build_congr
  intro r c hr hc
  simp [hr]

/-- The private accumulator of the OpenMP branch, run for `k = 0 .. m-1`. -/
theorem cellSum_build [Zero α] [Add α] [Mul α] (n : Nat) (a b : Nat → Nat → α)
    (i j : Nat) (hi : i < n) (hj : j < n) (m : Nat) (hm : m ≤ n) :
    cellSum (build n a) (build n b) m i j = some (accumulate a b m i j 0) := by
  unfold cellSum
  induction m with
  | zero => simp [accumulate_zero]
  | succ m ih =>
    have hm2 : m < n := by omega
    rw [foldlM_range_succ, ih (by omega)]
    simp [readCell_build n a i m hi hm2, readCell_build n b m j hm2 hj, accumulate_succ]

/-- The column loop of the OpenMP branch, run for `j = 0 .. m-1`. -/
theorem parallel_inner_loop [Zero α] [Add α] [Mul α] (n : Nat) (f a b : Nat → Nat → α)
    (i : Nat) (hi : i < n) (m : Nat) (hm : m ≤ n) :
    (List.range m).foldlM (fun C j => do
        let sum ← cellSum (build n a) (build n b) n i j
        writeCell C i j sum) (build n f)
      = some (build n (fun r c => if r = i ∧ c < m then accumulate a b n i c 0 else f r c)) := by
  induction m with
  | zero => simp
  | succ m ih =>
    have hm2 : m < n := by omega
    rw [foldlM_range_succ, ih (by omega)]
    simp only [Option.bind_eq_bind, Option.some_bind,
      cellSum_build n a b i m hi hm2 n (Nat.le_refl n), writeCell_build n _ i m _ hi hm2]
    congr 1
    apply build_congr
    intro r c hr hc
    by_cases h1 : r = i
    · by_cases h2 : c = m
      · subst h1; subst h2; simp
      · have h3 : c < m + 1 ↔ c < m := by omega
        simp [h1, h2, h3]
    · simp [h1]

/-- The row loop of the OpenMP branch, run for `i = 0 .. m-1`. -/
theorem parallel_outer_loop [Zero α] [Add α] [Mul α] (n : Nat) (f a b : Nat → Nat → α)
    (m : Nat) (hm : m ≤ n) :
    (List.range m).foldlM (fun C i =>
        (List.range n).foldlM (fun C j => do
          let sum ← cellSum (build n a) (build n b) n i j
          writeCell C i j sum) C) (build n f)
      = some (build n (fun r c => if r < m then accumulate a b n r c 0 else f r c)) := by
  induction m with
  | zero => simp
  | succ m ih =>
    have hm2 : m < n := by omega
    rw [foldlM_range_succ, ih (by omega)]
    simp only [Option.some_bind]
    rw [parallel_inner_loop n _ a b m hm2 n (Nat.le_refl n)]
    congr 1
    apply build_congr
    intro r c hr hc
    by_cases h1 : r = m
    · subst h1; simp [hc]
    · by_cases h2 : r < m
      · have : r < m + 1 := by omega
        simp [h1, h2, this]
      · have : ¬ r < m + 1 := by omega
        simp [h1, h2, this]

/-- Both branches of the parallel routine on matrices given by their entries. -/
theorem multiplyMatricesParallel_build [Zero α] [Add α] [Mul α] (openmp : Bool) (n : Nat)
    (a b : Nat → Nat → α) :
    multiplyMatricesParallel openmp (build n a) (build n b)
      = some (build n (fun i j => accumulate a b n i j 0)) := by
  unfold multiplyMatricesParallel
  cases openmp
  · simp only [Bool.false_eq_true, if_false]
    exact multiplyMatrices_build n a b
  · simp only [if_true, build_length, zeroMatrix_eq_build]
    rw [parallel_outer_loop n _ a b n (Nat.le_refl n)]
    congr 1
    apply build_congr
    intro r c hr hc
    simp [hr]

/-! ## Multiplication of square matrices -/

/-- Both routines on any two `n`-by-`n` matrices: they return the matrix whose cell
`(i, j)` is the left-to-right accumulation over `k`. -/
theorem multiplyMatrices_of_isSquare [Zero α] [Add α] [Mul α] (n : Nat) (A B : Matrix α)
    (hA : IsSquare n A) (hB : IsSquare n B) :
    multiplyMatrices A B = some (build n (fun i j => accumulate (entry A) (entry B) n i j 0)) := by
  have h := multiplyMatrices_build n (entry A) (entry B)
  rw [← eq_build_of_isSquare n A hA, ← eq_build_of_isSquare n B hB] at h
  exact h

theorem multiplyMatricesParallel_of_isSquare [Zero α] [Add α] [Mul α] (openmp : Bool) (n : Nat)
    (A B : Matrix α) (hA : IsSquare n A) (hB : IsSquare n B) :
    multiplyMatricesParallel openmp A B
      = some (build n (fun i j => accumulate (entry A) (entry B) n i j 0)) := by
  have h := multiplyMatricesParallel_build openmp n (entry A) (entry B)
  rw [← eq_build_of_isSquare n A hA, ← eq_build_of_isSquare n B hB] at h
  exact h

/-- Over a semiring the accumulation is the sum of the products. -/
theorem accumulate_eq_sum {β : Type} [Semiring β] (a b : Nat → Nat → β) (m i j : Nat) (init : β) :
    accumulate a b m i j init = init + ∑ k ∈ Finset.range m, a i k * b k j := by
  induction m with
  | zero => simp [accumulate_zero]
  | succ m ih => rw [accumulate_succ, ih, Finset.sum_range_succ, add_assoc]

theorem entry_zeroMatrix [Zero α] (n i j : Nat) : entry (zeroMatrix n : Matrix α) i j = 0 := by
  by_cases hi : i < n
  · by_cases hj : j < n
    · rw [zeroMatrix_eq_build, entry_build n _ i j hi hj]
    · simp [entry, readCell, zeroMatrix, hi, hj]
  · have h : (zeroMatrix n : Matrix α)[i]? = none := by
      apply List.getElem?_eq_none
      simp only [zeroMatrix, List.length_replicate]
      omega
    simp [entry, readCell, h]

theorem isSquare_zeroMatrix [Zero α] (n : Nat) : IsSquare n (zeroMatrix n : Matrix α) := by
  rw [zeroMatrix_eq_build]; exact isSquare_build n _

theorem isSquare_identityMatrix [Zero α] [One α] (n : Nat) :
    IsSquare n (identityMatrix n : Matrix α) := isSquare_build n _

/-! ## The loops of `compareMatrices` -/

/-- The inner loop on row `i` of two matrices given by their entries, for any entry type:
it returns, it passes exactly when no remaining cell has `diff > tolerance`, and when it
passes the accumulator is the running `std::max` over the remaining cells. -/
theorem compareRow_build [Sub α] [StdAbs α] [LT α] [∀ a b : α, Decidable (a < b)]
    (n : Nat) (f g : Nat → Nat → α) (tol : α) (i : Nat) (hi : i < n)
    (js : List Nat) (hjs : ∀ j ∈ js, j < n) (md : α) :
    ∃ b md', compareRow (build n f) (build n g) tol i js md = some (b, md') ∧
      (b = true ↔ ∀ j ∈ js, ¬ tol < StdAbs.abs (f i j - g i j)) ∧
      (b = true → md' = js.foldl (fun m j => stdMax m (StdAbs.abs (f i j - g i j))) md) := by
  induction js generalizing md with
  | nil => exact ⟨true, md, rfl, by simp, by simp⟩
  | cons j js ih =>
    have hj : j < n := hjs j (List.mem_cons_self j js)
    have hjs2 : ∀ c ∈ js, c < n := fun c hc => hjs c (List.mem_cons_of_mem j hc)
    by_cases hd : tol < StdAbs.abs (f i j - g i j)
    · refine ⟨false, stdMax md (StdAbs.abs (f i j - g i j)), ?_, ?_, by simp⟩
      · simp [compareRow, readCell_build n f i j hi hj, readCell_build n g i j hi hj, hd]
      · simp only [Bool.false_eq_true, false_iff, not_forall]
        exact ⟨j, List.mem_cons_self j js, fun h => h hd⟩
    · obtain ⟨b, md', h1, h2, h3⟩ := ih hjs2 (stdMax md (StdAbs.abs (f i j - g i j)))
      refine ⟨b, md', ?_, ?_, ?_⟩
      · simp [compareRow, readCell_build n f i j hi hj, readCell_build n g i j hi hj, hd, h1]
      · rw [h2]
        constructor
        · intro h c hc
          rcases List.mem_cons.1 hc with rfl | hc
          · exact hd
          · exact h c hc
        · intro h c hc
          exact h c (List.mem_cons_of_mem j hc)
      · intro hb
        rw [h3 hb, List.foldl_cons]

/-- The outer loop on two matrices given by their entries, for any entry type. -/
theorem compareRows_build [Sub α] [StdAbs α] [LT α] [∀ a b : α, Decidable (a < b)]
    (n : Nat) (f g : Nat → Nat → α) (tol : α)
    (rows : List Nat) (hrows : ∀ i ∈ rows, i < n) (md : α) :
    ∃ b md', compareRows (build n f) (build n g) tol n rows md = some (b, md') ∧
      (b = true ↔ ∀ i ∈ rows, ∀ j, j < n → ¬ tol < StdAbs.abs (f i j - g i j)) ∧
      (b = true → md' = rows.foldl (fun m i =>
        (List.range n).foldl (fun m j => stdMax m (StdAbs.abs (f i j - g i j))) m) md) := by
  induction rows generalizing md with
  | nil => exact ⟨true, md, rfl, by simp, by simp⟩
  | cons i rows ih =>
    have hi : i < n := hrows i (List.mem_cons_self i rows)
    have hrows2 : ∀ r ∈ rows, r < n := fun r hr => hrows r (List.mem_cons_of_mem i hr)
    obtain ⟨b, md', h1, h2, h3⟩ :=
      compareRow_build n f g tol i hi (List.range n) (fun j hj => List.mem_range.1 hj) md
    cases b with
    | false =>
      refine ⟨false, md', ?_, ?_, by simp⟩
      · simp [compareRows, h1]
      · simp only [Bool.false_eq_true, false_iff]
        intro h
        have h4 : ¬ ∀ j ∈ List.range n, ¬ tol < StdAbs.abs (f i j - g i j) := fun h5 => by
          have := h2.2 h5
          simp at this
        exact h4 (fun j hj => h i (List.mem_cons_self i rows) j (List.mem_range.1 hj))
    | true =>
      obtain ⟨b2, md2, k1, k2, k3⟩ := ih hrows2 md'
      refine ⟨b2, md2, ?_, ?_, ?_⟩
      · simp [compareRows, h1, k1]
      · rw [k2]
        constructor
        · intro h r hr
          rcases List.mem_cons.1 hr with rfl | hr
          · intro j hj
            exact h2.1 rfl j (List.mem_range.2 hj)
          · exact h r hr
        · intro h r hr
          exact h r (List.mem_cons_of_mem i hr)
      · intro hb
        rw [k3 hb, List.foldl_cons, h3 rfl]

/-- The function `compareMatrices` on two matrices of the same size given by their
entries, for any entry type. -/
theorem compareMatrices_build [Zero α] [Sub α] [StdAbs α] [LT α]
    [∀ a b : α, Decidable (a < b)] (n : Nat) (f g : Nat → Nat → α) (tol md : α) :
    ∃ b md', compareMatrices (build n f) (build n g) tol md = some (b, md') ∧
      (b = true ↔ ∀ i j, i < n → j < n → ¬ tol < StdAbs.abs (f i j - g i j)) ∧
      (b = true → md' = (List.range n).foldl (fun m i =>
        (List.range n).foldl (fun m j => stdMax m (StdAbs.abs (f i j - g i j))) m) 0) := by
  obtain ⟨b, md', h1, h2, h3⟩ :=
    compareRows_build n f g tol (List.range n) (fun i hi => List.mem_range.1 hi) 0
  refine ⟨b, md', ?_, ?_, h3⟩
  · simp [compareMatrices, build_length, h1]
  · rw [h2]
    constructor
    · intro h i j hi hj
      exact h i (List.mem_range.2 hi) j hj
    · intro h i hi j hj
      exact h i j (List.mem_range.1 hi) hj

/-- The function `compareMatrices` on two `n`-by-`n` matrices over any entry type: it
returns, and it passes exactly when no cell has `diff > tolerance`, where `diff` is the
value `std::abs(C1[i][j] - C2[i][j])` computed in the entry type. -/
theorem compareMatrices_passes_iff_not_gt [Zero α] [Sub α] [StdAbs α] [LT α]
    [∀ a b : α, Decidable (a < b)] (n : Nat) (C1 C2 : Matrix α) (tol md : α)
    (h1 : IsSquare n C1) (h2 : IsSquare n C2) :
    ∃ b md', compareMatrices C1 C2 tol md = some (b, md') ∧
      (b = true ↔ ∀ i j, i < n → j < n → ¬ tol < StdAbs.abs (entry C1 i j - entry C2 i j)) ∧
      (b = true → md' = (List.range n).foldl (fun m i =>
        (List.range n).foldl (fun m j =>
          stdMax m (StdAbs.abs (entry C1 i j - entry C2 i j))) m) 0) := by
  have h := compareMatrices_build n (entry C1) (entry C2) tol md
  rw [← eq_build_of_isSquare n C1 h1, ← eq_build_of_isSquare n C2 h2] at h
  exact h

theorem stdAbs_rat (x : ℚ) : StdAbs.abs x = |x| := rfl

theorem stdMax_rat (a b : ℚ) : stdMax a b = max a b := by
  unfold stdMax
  by_cases h : a < b
  · rw [if_pos h, max_eq_right (le_of_lt h)]
  · rw [if_neg h, max_eq_left (not_lt.1 h)]

/-- The running maximum of differences that are all zero stays at its start. -/
theorem foldl_max_self (f : Nat → Nat → ℚ) (n : Nat) (rows : List Nat) (m : ℚ) (hm : 0 ≤ m) :
    rows.foldl (fun m i =>
      (List.range n).foldl (fun m j => max m |f i j - f i j|) m) m = m := by
  have inner : ∀ (i : Nat) (js : List Nat) (m : ℚ), 0 ≤ m →
      js.foldl (fun m j => max m |f i j - f i j|) m = m := by
    intro i js
    induction js with
    | nil => intro m _; rfl
    | cons j js ih =>
      intro m hm
      rw [List.foldl_cons, sub_self, abs_zero, max_eq_left hm]
      exact ih m hm
  induction rows with
  | nil => rfl
  | cons i rows ih => rw [List.foldl_cons, inner i _ m hm]; exact ih

/-! ## Comparison and verification of square matrices -/

/-- The function `compareMatrices` on two `n`-by-`n` matrices: it returns, it passes
exactly when every cell is within the tolerance, and when it passes the reported
`max_diff` is the running maximum, started at `0`, over all cells in row-major order. -/
theorem compareMatrices_of_isSquare (n : Nat) (C1 C2 : Matrix ℚ) (tol md : ℚ)
    (h1 : IsSquare n C1) (h2 : IsSquare n C2) :
    ∃ b md', compareMatrices C1 C2 tol md = some (b, md') ∧
      (b = true ↔ ∀ i j, i < n → j < n → |entry C1 i j - entry C2 i j| ≤ tol) ∧
      (b = true → md' = (List.range n).foldl (fun m i =>
        (List.range n).foldl (fun m j => max m |entry C1 i j - entry C2 i j|) m) 0) := by
  have h := compareMatrices_passes_iff_not_gt n C1 C2 tol md h1 h2
  simp only [stdAbs_rat, stdMax_rat, not_lt] at h
  exact h

/-- Comparing an `n`-by-`n` matrix with itself under a non-negative tolerance passes with
`max_diff = 0`. -/
theorem compareMatrices_self (n : Nat) (M : Matrix ℚ) (tol md : ℚ) (hM : IsSquare n M)
    (htol : 0 ≤ tol) : compareMatrices M M tol md = some (true, 0) := by
  obtain ⟨b, md', h1, h2, h3⟩ := compareMatrices_of_isSquare n M M tol md hM hM
  have hb : b = true := h2.2 (fun i j _ _ => by rw [sub_self, abs_zero]; exact htol)
  subst hb
  rw [h1, h3 rfl, foldl_max_self (entry M) n (List.range n) 0 (le_refl 0)]

/-- The literal `1e-8` read as an exact number. -/
theorem tolerance_rat : (1e-8 : ℚ) = 1 / 100000000 := by norm_num

/-- The function `verifyResult` once the reference product is known, for any entry type. -/
theorem verifyResult_of_product [Zero α] [Add α] [Mul α] [Sub α] [StdAbs α] [LT α]
    [∀ a b : α, Decidable (a < b)] [OfScientific α] (A B C E : Matrix α) (md : α)
    (h : multiplyMatrices A B = some E) :
    verifyResult A B C md = compareMatrices C E 1e-8 md := by
  simp [verifyResult, h]

/-- The running maximum over a list: it is at least its start and at least every
element, and it is its start or one of the elements. -/
theorem foldl_max_spec (d : Nat → ℚ) (js : List Nat) (m : ℚ) :
    m ≤ js.foldl (fun m j => max m (d j)) m ∧
    (∀ j ∈ js, d j ≤ js.foldl (fun m j => max m (d j)) m) ∧
    (js.foldl (fun m j => max m (d j)) m = m ∨
      ∃ j ∈ js, js.foldl (fun m j => max m (d j)) m = d j) := by
  induction js generalizing m with
  | nil => simp
  | cons j js ih =>
    obtain ⟨h1, h2, h3⟩ := ih (max m (d j))
    simp only [List.foldl_cons]
    refine ⟨le_trans (le_max_left m (d j)) h1, ?_, ?_⟩
    · intro c hc
      rcases List.mem_cons.1 hc with rfl | hc
      · exact le_trans (le_max_right m (d c)) h1
      · exact h2 c hc
    · rcases h3 with h3 | ⟨c, hc, h3⟩
      · rcases max_choice m (d j) with hm | hm
        · left; rw [h3, hm]
        · right; exact ⟨j, List.mem_cons_self j js, by rw [h3, hm]⟩
      · right; exact ⟨c, List.mem_cons_of_mem j hc, h3⟩

/-- The running maximum over the cells of the listed rows, row by row. -/
theorem foldl_foldl_max_spec (d : Nat → Nat → ℚ) (n : Nat) (rows : List Nat) (m : ℚ) :
    m ≤ rows.foldl (fun m i => (List.range n).foldl (fun m j => max m (d i j)) m) m ∧
    (∀ i ∈ rows, ∀ j, j < n →
      d i j ≤ rows.foldl (fun m i => (List.range n).foldl (fun m j => max m (d i j)) m) m) ∧
    (rows.foldl (fun m i => (List.range n).foldl (fun m j => max m (d i j)) m) m = m ∨
      ∃ i ∈ rows, ∃ j, j < n ∧
        rows.foldl (fun m i => (List.range n).foldl (fun m j => max m (d i j)) m) m = d i j) := by
  induction rows generalizing m with
  | nil => simp
  | cons i rows ih =>
    obtain ⟨k1, k2, k3⟩ := foldl_max_spec (d i) (List.range n) m
    obtain ⟨h1, h2, h3⟩ := ih ((List.range n).foldl (fun m j => max m (d i j)) m)
    simp only [List.foldl_cons]
    refine ⟨le_trans k1 h1, ?_, ?_⟩
    · intro r hr j hj
      rcases List.mem_cons.1 hr with rfl | hr
      · exact le_trans (k2 j (List.mem_range.2 hj)) h1
      · exact h2 r hr j hj
    · rcases h3 with h3 | ⟨r, hr, j, hj, h3⟩
      · rcases k3 with k3 | ⟨j, hj, k3⟩
        · left; rw [h3, k3]
        · right
          exact ⟨i, List.mem_cons_self i rows, j, List.mem_range.1 hj, by rw [h3, k3]⟩
      · right; exact ⟨r, List.mem_cons_of_mem i hr, j, hj, h3⟩

/-- When `compareMatrices` passes on two `n`-by-`n` matrices, the reported `max_diff` is
the maximum over all cells of `|C1[i][j] - C2[i][j]|`: no cell exceeds it, and it is
attained at some cell (it is `0` when `n = 0`). -/
theorem compareMatrices_max_diff_of_pass (n : Nat) (C1 C2 : Matrix ℚ) (tol md md' : ℚ)
    (h1 : IsSquare n C1) (h2 : IsSquare n C2)
    (h : compareMatrices C1 C2 tol md = some (true, md')) :
    (∀ i j, i < n → j < n → |entry C1 i j - entry C2 i j| ≤ md') ∧
    ((n = 0 ∧ md' = 0) ∨
      ∃ i j, i < n ∧ j < n ∧ md' = |entry C1 i j - entry C2 i j|) := by
  obtain ⟨b, r, k1, _, k3⟩ := compareMatrices_of_isSquare n C1 C2 tol md h1 h2
  rw [h] at k1
  have hb : b = true := by
    have := Option.some.inj k1
    exact (congrArg Prod.fst this).symm
  have hr : r = md' := by
    have := Option.some.inj k1
    exact (congrArg Prod.snd this).symm
  have hmd := k3 hb
  rw [hr] at hmd
  obtain ⟨_, g2, g3⟩ := foldl_foldl_max_spec
    (fun i j => |entry C1 i j - entry C2 i j|) n (List.range n) 0
  rw [← hmd] at g2 g3
  refine ⟨fun i j hi hj => g2 i (List.mem_range.2 hi) j hj, ?_⟩
  rcases g3 with g3 | ⟨i, hi, j, hj, g3⟩
  · rcases Nat.eq_zero_or_pos n with hn | hn
    · left; exact ⟨hn, g3⟩
    · right
      refine ⟨0, 0, hn, hn, ?_⟩
      have hle := g2 0 (List.mem_range.2 hn) 0 hn
      rw [g3] at hle ⊢
      exact le_antisymm (abs_nonneg _) hle
  · right; exact ⟨i, j, List.mem_range.1 hi, hj, g3⟩

/-! ## Interleaved execution of the parallel loop -/

theorem readCell_writeCell_of_ne {β : Type} (M M' : Matrix β) (i j r c : Nat) (v : β)
    (h : writeCell M i j v = some M') (hne : (r, c) ≠ (i, j)) :
    readCell M' r c = readCell M r c := by
  unfold writeCell at h
  cases hrow : M[i]? with
  | none => simp [hrow] at h
  | some row =>
    simp only [hrow] at h
    by_cases hj : j < row.length
    · simp only [hj, if_true, Option.some.injEq] at h
      subst h
      unfold readCell
      by_cases hri : i = r
      · subst hri
        have hcj : ¬ j = c := fun hcj => hne (by rw [hcj])
        have hi : i < M.length := by
          by_contra hcon
          rw [List.getElem?_eq_none (by omega)] at hrow
          exact Option.noConfusion hrow
        simp [List.getElem?_set, hi, hrow, hcj]
      · simp [List.getElem?_set, hri]
    · simp [hj] at h

/-- A step of iteration `(i, j)` leaves every cell of `C` other than `(i, j)` as it was. -/
theorem stepIteration_footprint {β : Type} [Add β] [Mul β] (A B : Matrix β) (n : Nat)
    (st st' : ParallelState β) (i j r c : Nat)
    (h : stepIteration A B n st i j = some st') (hne : (r, c) ≠ (i, j)) :
    readCell st'.C r c = readCell st.C r c := by
  unfold stepIteration at h
  cases ht : readCell st.iterations i j with
  | none => simp [ht] at h
  | some t =>
    simp only [ht, bind_some_eq] at h
    by_cases hs : t.stored = true
    · simp [hs] at h
    · simp only [hs, Bool.false_eq_true, if_false] at h
      by_cases hk : t.k < n
      · simp only [hk, if_true] at h
        cases ha : readCell A i t.k with
        | none => simp [ha] at h
        | some aik =>
          cases hb : readCell B t.k j with
          | none => simp [ha, hb] at h
          | some bkj =>
            simp only [ha, hb, bind_some_eq] at h
            cases hw : writeCell st.iterations i j
                { k := t.k + 1, sum := t.sum + aik * bkj, stored := false } with
            | none => simp [hw] at h
            | some its =>
              simp only [hw, bind_some_eq] at h
              have := Option.some.inj h
              subst this
              rfl
      · simp only [hk, if_false] at h
        cases hc : writeCell st.C i j t.sum with
        | none => simp [hc] at h
        | some C' =>
          simp only [hc, bind_some_eq] at h
          cases hw : writeCell st.iterations i j { k := t.k, sum := t.sum, stored := true } with
          | none => simp [hw] at h
          | some its =>
            simp only [hw, bind_some_eq] at h
            have := Option.some.inj h
            subst this
            exact readCell_writeCell_of_ne st.C C' i j r c t.sum hc hne

theorem initialState_eq_stateAfter [Zero α] [Add α] [Mul α] (a b : Nat → Nat → α) (n : Nat) :
    (initialState n : ParallelState α) = stateAfter a b n (fun _ _ => 0) := by
  unfold initialState stateAfter
  rw [zeroMatrix_eq_build]
  congr 1
  apply build_congr
  intro i j _ _
  simp [accumulate_zero]

/-- One step of iteration `(i, j)` from the state described by a step count. -/
theorem stepIteration_stateAfter [Zero α] [Add α] [Mul α] (a b : Nat → Nat → α) (n : Nat)
    (steps : Nat → Nat → Nat) (i j : Nat) (hi : i < n) (hj : j < n) (hs : steps i j ≤ n) :
    stepIteration (build n a) (build n b) n (stateAfter a b n steps) i j
      = some (stateAfter a b n (fun r c => if r = i ∧ c = j then steps r c + 1 else steps r c)) := by
  have hne : ¬ steps i j = n + 1 := by omega
  unfold stepIteration
  simp only [stateAfter, readCell_build n _ i j hi hj, bind_some_eq, hne, decide_False,
    Bool.false_eq_true, if_false]
  by_cases hk : steps i j < n
  · have hmin : min (steps i j) n = steps i j := by omega
    simp only [hmin, hk, if_true, readCell_build n a i _ hi hk, readCell_build n b _ j hk hj,
      bind_some_eq, writeCell_build n _ i j _ hi hj]
    congr 2
    · apply build_congr
      intro r c _ _
      by_cases h : r = i ∧ c = j
      · obtain ⟨rfl, rfl⟩ := h
        have : ¬ steps r c + 1 = n + 1 := by omega
        simp [hne, this]
      · simp [h]
    · apply build_congr
      intro r c _ _
      by_cases h : r = i ∧ c = j
      · obtain ⟨rfl, rfl⟩ := h
        have h1 : ¬ steps r c + 1 = n + 1 := by omega
        have h2 : min (steps r c + 1) n = steps r c + 1 := by omega
        simp [h1, h2, accumulate_succ]
      · simp [h]
  · have heq : steps i j = n := by omega
    have hmin : min (steps i j) n = n := by omega
    simp only [hmin, Nat.lt_irrefl, if_false, bind_some_eq, writeCell_build n _ i j _ hi hj]
    congr 2
    · apply build_congr
      intro r c _ _
      by_cases h : r = i ∧ c = j
      · obtain ⟨rfl, rfl⟩ := h
        simp [heq]
      · simp [h]
    · apply build_congr
      intro r c _ _
      by_cases h : r = i ∧ c = j
      · obtain ⟨rfl, rfl⟩ := h
        simp [heq]
      · simp [h]

/-- A schedule run from the state described by a step count, when no iteration is
scheduled more often than it has steps left. -/
theorem runSchedule_stateAfter [Zero α] [Add α] [Mul α] (a b : Nat → Nat → α) (n : Nat)
    (schedule : List (Nat × Nat)) (steps : Nat → Nat → Nat)
    (hvalid : ∀ p ∈ schedule, p.1 < n ∧ p.2 < n)
    (hcount : ∀ i j, steps i j + schedule.count (i, j) ≤ n + 1) :
    runSchedule (build n a) (build n b) n schedule (stateAfter a b n steps)
      = some (stateAfter a b n (fun i j => steps i j + schedule.count (i, j))) := by
  induction schedule generalizing steps with
  | nil => simp [runSchedule]
  | cons p rest ih =>
    obtain ⟨i, j⟩ := p
    have hp := hvalid (i, j) (List.mem_cons_self _ _)
    have hs : steps i j ≤ n := by
      have := hcount i j
      simp only [List.count_cons_self] at this
      omega
    have hrest : ∀ q ∈ rest, q.1 < n ∧ q.2 < n :=
      fun q hq => hvalid q (List.mem_cons_of_mem _ hq)
    have hupd : ∀ r c, (if r = i ∧ c = j then steps r c + 1 else steps r c)
        + rest.count (r, c) = steps r c + ((i, j) :: rest).count (r, c) := by
      intro r c
      by_cases h : r = i ∧ c = j
      · obtain ⟨rfl, rfl⟩ := h
        simp only [and_self, if_true, List.count_cons_self]
        omega
      · have hne : ¬ ((i, j) == (r, c)) = true := by
          simp only [beq_iff_eq, Prod.mk.injEq]
          intro hh
          exact h ⟨hh.1.symm, hh.2.symm⟩
        simp only [h, if_false, List.count_cons, hne]
        simp
    have hcount2 : ∀ r c, (if r = i ∧ c = j then steps r c + 1 else steps r c)
        + rest.count (r, c) ≤ n + 1 := by
      intro r c
      rw [hupd r c]
      exact hcount r c
    have hstep := stepIteration_stateAfter a b n steps i j hp.1 hp.2 hs
    have hrun := ih _ hrest hcount2
    unfold runSchedule at hrun ⊢
    rw [List.foldlM_cons, hstep, bind_some_eq, hrun]
    congr 2
    funext r c
    exact hupd r c

/-- Every complete schedule, run from the initial state, ends with the matrix of
left-to-right accumulations in `C`. -/
theorem runSchedule_build [Zero α] [Add α] [Mul α] (a b : Nat → Nat → α) (n : Nat)
    (schedule : List (Nat × Nat))
    (hvalid : ∀ p ∈ schedule, p.1 < n ∧ p.2 < n)
    (hcount : ∀ i j, i < n → j < n → schedule.count (i, j) = n + 1) :
    ∃ st, runSchedule (build n a) (build n b) n schedule (initialState n) = some st ∧
      st.C = build n (fun i j => accumulate a b n i j 0) := by
  have hc : ∀ i j, 0 + schedule.count (i, j) ≤ n + 1 := by
    intro i j
    by_cases h : i < n ∧ j < n
    · rw [hcount i j h.1 h.2]; omega
    · have : (i, j) ∉ schedule := fun hm => h (hvalid (i, j) hm)
      rw [List.count_eq_zero_of_not_mem this]; omega
  refine ⟨stateAfter a b n (fun i j => 0 + schedule.count (i, j)), ?_, ?_⟩
  · rw [initialState_eq_stateAfter a b n]
    exact runSchedule_stateAfter a b n schedule (fun _ _ => 0) hvalid hc
  · simp only [stateAfter]
    apply build_congr
    intro i j hi hj
    simp [hcount i j hi hj]

/-! ## Arithmetic of `double` -/

theorem Double.round_zero : Double.round 0 = Double.finite 0 := by
  simp [Double.round]

theorem Double.zero_def : (0 : Double) = Double.finite 0 := rfl

theorem Double.add_finite (a b : ℚ) :
    Double.finite a + Double.finite b = Double.round (a + b) := rfl

theorem Double.mul_finite (a b : ℚ) :
    Double.finite a * Double.finite b = Double.round (a * b) := rfl

theorem Double.sub_finite (a b : ℚ) :
    Double.finite a - Double.finite b = Double.round (a + -b) := rfl

theorem Double.eq_finite_of_isFinite (x : Double) (h : x.isFinite = true) :
    ∃ q, x = Double.finite q := by
  cases x with
  | finite q => exact ⟨q, rfl⟩
  | infinity s => simp [Double.isFinite] at h
  | nan => simp [Double.isFinite] at h

/-- A finite value minus itself is zero, and so is the absolute value of that. -/
theorem Double.abs_sub_self (x : Double) (h : x.isFinite = true) :
    StdAbs.abs (x - x) = (0 : Double) := by
  obtain ⟨q, rfl⟩ := Double.eq_finite_of_isFinite x h
  rw [Double.sub_finite, add_neg_cancel, Double.round_zero]
  show Double.abs (Double.finite 0) = Double.finite 0
  simp [Double.abs]

/-- Zero does not exceed the literal `1e-8`. -/
theorem Double.zero_le_tolerance : (0 : Double) ≤ (1e-8 : Double) := by decide!

/-- Unless an operand is NaN, `a < b` fails exactly when `b <= a`. -/
theorem Double.not_lt_iff_le (a b : Double) (ha : a.isNaN = false) (hb : b.isNaN = false) :
    ¬ a < b ↔ b ≤ a := by
  show ¬ Double.lt a b = true ↔ Double.le b a = true
  cases a with
  | nan => simp [Double.isNaN] at ha
  | finite x =>
    cases b with
    | nan => simp [Double.isNaN] at hb
    | finite y => simp [Double.lt, Double.le]
    | infinity t => cases t <;> simp [Double.lt, Double.le]
  | infinity s =>
    cases b with
    | nan => simp [Double.isNaN] at hb
    | finite y => cases s <;> simp [Double.lt, Double.le]
    | infinity t => cases s <;> cases t <;> simp [Double.lt, Double.le]

/-- The accumulation of products of finite values with zeros stays at zero. -/
theorem accumulate_mul_zero (a b : Nat → Nat → Double) (m i j : Nat)
    (ha : ∀ k, k < m → (a i k).isFinite = true) (hb : ∀ k, k < m → b k j = 0) :
    accumulate a b m i j 0 = 0 := by
  induction m with
  | zero => exact accumulate_zero a b i j 0
  | succ m ih =>
    rw [accumulate_succ, ih (fun k hk => ha k (by omega)) (fun k hk => hb k (by omega)),
      hb m (by omega)]
    obtain ⟨q, hq⟩ := Double.eq_finite_of_isFinite (a i m) (ha m (by omega))
    rw [hq, Double.zero_def, Double.mul_finite, mul_zero, Double.round_zero,
      Double.add_finite, add_zero, Double.round_zero]

/-- The accumulation of products of zeros with finite values stays at zero. -/
theorem accumulate_zero_mul (a b : Nat → Nat → Double) (m i j : Nat)
    (ha : ∀ k, k < m → a i k = 0) (hb : ∀ k, k < m → (b k j).isFinite = true) :
    accumulate a b m i j 0 = 0 := by
  induction m with
  | zero => exact accumulate_zero a b i j 0
  | succ m ih =>
    rw [accumulate_succ, ih (fun k hk => ha k (by omega)) (fun k hk => hb k (by omega)),
      ha m (by omega)]
    obtain ⟨q, hq⟩ := Double.eq_finite_of_isFinite (b m j) (hb m (by omega))
    rw [hq, Double.zero_def, Double.mul_finite, zero_mul, Double.round_zero,
      Double.add_finite, add_zero, Double.round_zero]

/-- Any value minus itself has absolute value zero or NaN. -/
theorem Double.abs_sub_self_cases (x : Double) :
    StdAbs.abs (x - x) = (0 : Double) ∨ StdAbs.abs (x - x) = Double.nan := by
  cases x with
  | finite q => exact Or.inl (Double.abs_sub_self _ rfl)
  | infinity s => right; cases s <;> rfl
  | nan => right; rfl

/-- The running `std::max` of the differences of a matrix with itself stays at zero. -/
theorem foldl_stdMax_self (f : Nat → Nat → Double) (n : Nat) (rows : List Nat) :
    rows.foldl (fun m i =>
      (List.range n).foldl (fun m j => stdMax m (StdAbs.abs (f i j - f i j))) m) 0 = 0 := by
  have step : ∀ x : Double, stdMax (0 : Double) (StdAbs.abs (x - x)) = 0 := by
    intro x
    rcases Double.abs_sub_self_cases x with h | h <;> rw [h] <;> rfl
  have inner : ∀ (i : Nat) (js : List Nat),
      js.foldl (fun m j => stdMax m (StdAbs.abs (f i j - f i j))) (0 : Double) = 0 := by
    intro i js
    induction js with
    | nil => rfl
    | cons j js ih => rw [List.foldl_cons, step]; exact ih
  induction rows with
  | nil => rfl
  | cons i rows ih => rw [List.foldl_cons, inner]; exact ih

/-- On doubles too, for every pair of `n`-by-`n` matrices `A` and `B`, infinite and NaN
entries included, `verifyResult` applied to the product itself returns `true` with
`max_diff = 0`. -/
theorem verifyResult_self_double (n : Nat) (A B : Matrix Double) (max_diff : Double)
    (hA : IsSquare n A) (hB : IsSquare n B) :
    ∃ E, multiplyMatrices A B = some E ∧ verifyResult A B E max_diff = some (true, 0) := by
  refine ⟨_, multiplyMatrices_of_isSquare n A B hA hB, ?_⟩
  rw [verifyResult_of_product A B _ _ max_diff (multiplyMatrices_of_isSquare n A B hA hB)]
  obtain ⟨b, md, k1, k2, k3⟩ := compareMatrices_build n
    (fun i j => accumulate (entry A) (entry B) n i j 0)
    (fun i j => accumulate (entry A) (entry B) n i j 0) (1e-8 : Double) max_diff
  have hb : b = true := by
    apply k2.2
    intro i j _ _
    rcases Double.abs_sub_self_cases (accumulate (entry A) (entry B) n i j 0) with h | h
    · rw [h]; decide!
    · rw [h]; decide!
  subst hb
  rw [k1, k3 rfl, foldl_stdMax_self]

/-! ## The claims about multiplication -/

/-- Claim C1: For every `n` and every pair of `n`-by-`n` matrices `A` and `B` of exact
numbers, `multiplyMatrices A B` returns a matrix with exactly `n` rows of exactly `n`
entries whose cell `(i, j)` is the sum over `k < n` of `A[i][k] * B[k][j]`; and
`[[1,2],[3,4]]` times `[[5,6],[7,8]]` is `[[19,22],[43,50]]`, `[[3]]` times `[[4]]` is
`[[12]]`. -/
theorem multiplyMatrices_correct (n : Nat) (A B : Matrix ℚ)
    (hA : IsSquare n A) (hB : IsSquare n B) :
    (∃ C, multiplyMatrices A B = some C ∧ C.length = n ∧ (∀ row ∈ C, row.length = n) ∧
      ∀ i j, i < n → j < n →
        readCell C i j = some (∑ k ∈ Finset.range n, entry A i k * entry B k j))
    ∧ multiplyMatrices [[1, 2], [3, 4]] [[5, 6], [7, 8]] = some ([[19, 22], [43, 50]] : Matrix ℚ)
    ∧ multiplyMatrices [[3]] [[4]] = some ([[12]] : Matrix ℚ) := by
  refine ⟨⟨_, multiplyMatrices_of_isSquare n A B hA hB, build_length n _,
    (isSquare_build n _).2, ?_⟩, by decide!, by decide!⟩
  intro i j hi hj
  rw [readCell_build n _ i j hi hj, accumulate_eq_sum, zero_add]

theorem multiplyMatrices_correct_witness :
    IsSquare 2 ([[1, 2], [3, 4]] : Matrix ℚ) ∧ IsSquare 2 ([[5, 6], [7, 8]] : Matrix ℚ) ∧
    ∃ C, multiplyMatrices [[1, 2], [3, 4]] [[5, 6], [7, 8]] = some C ∧ C.length = 2 ∧
      (∀ row ∈ C, row.length = 2) ∧
      ∀ i j, i < 2 → j < 2 →
        readCell C i j = some (∑ k ∈ Finset.range 2,
          entry ([[1, 2], [3, 4]] : Matrix ℚ) i k * entry ([[5, 6], [7, 8]] : Matrix ℚ) k j) :=
  ⟨by decide, by decide,
    (multiplyMatrices_correct 2 [[1, 2], [3, 4]] [[5, 6], [7, 8]] (by decide) (by decide)).1⟩

/-- Claim C2, as stated, at finite inputs that overflow: for `A = B = [[1e200]]` both
routines return `[[inf]]`, the difference `inf - inf` of the two cells is NaN, and NaN is
not at most `1e-8`. -/
theorem sequential_parallel_overflow_counterexample :
    IsSquare 1 ([[1e200]] : Matrix Double) ∧
    (1e200 : Double).isFinite = true ∧
    multiplyMatrices ([[1e200]] : Matrix Double) [[1e200]] = some [[Double.infinity false]] ∧
    multiplyMatricesParallel true ([[1e200]] : Matrix Double) [[1e200]]
      = some [[Double.infinity false]] ∧
    StdAbs.abs (entry ([[Double.infinity false]] : Matrix Double) 0 0
      - entry ([[Double.infinity false]] : Matrix Double) 0 0) = Double.nan ∧
    ¬ StdAbs.abs (entry ([[Double.infinity false]] : Matrix Double) 0 0
      - entry ([[Double.infinity false]] : Matrix Double) 0 0) ≤ (1e-8 : Double) :=
  ⟨by decide, by decide!, by decide!, by decide!, by decide!, by decide!⟩

/-- Claim C2, amended: for all square matrices `A` and `B` of doubles of equal size `n`,
both `multiplyMatrices A B` and the OpenMP branch of `multiplyMatricesParallel A B`
return an `n`-by-`n` matrix, and at every cell `(i, j)` where the sequential result is
finite (neither an infinity nor NaN) the two cells differ in absolute value by at most
`1e-8`. -/
theorem sequential_parallel_within_tolerance_of_finite (n : Nat) (A B : Matrix Double)
    (hA : IsSquare n A) (hB : IsSquare n B) :
    ∃ S P, multiplyMatrices A B = some S ∧ multiplyMatricesParallel true A B = some P ∧
      IsSquare n S ∧ IsSquare n P ∧
      ∀ i j, i < n → j < n → (entry S i j).isFinite = true →
        StdAbs.abs (entry S i j - entry P i j) ≤ (1e-8 : Double) := by
  refine ⟨_, _, multiplyMatrices_of_isSquare n A B hA hB,
    multiplyMatricesParallel_of_isSquare true n A B hA hB, isSquare_build n _,
    isSquare_build n _, ?_⟩
  intro i j _ _ hfin
  rw [Double.abs_sub_self _ hfin]
  exact Double.zero_le_tolerance

theorem sequential_parallel_within_tolerance_of_finite_witness :
    IsSquare 2 ([[1.5, 2.0], [3.0, 4.0]] : Matrix Double) ∧
    IsSquare 2 ([[5.0, 6.0], [7.0, 0.1]] : Matrix Double) ∧
    ∃ S P, multiplyMatrices ([[1.5, 2.0], [3.0, 4.0]] : Matrix Double) [[5.0, 6.0], [7.0, 0.1]] = some S ∧
      multiplyMatricesParallel true ([[1.5, 2.0], [3.0, 4.0]] : Matrix Double) [[5.0, 6.0], [7.0, 0.1]]
        = some P ∧
      IsSquare 2 S ∧ IsSquare 2 P ∧
      ∀ i j, i < 2 → j < 2 → (entry S i j).isFinite = true →
        StdAbs.abs (entry S i j - entry P i j) ≤ (1e-8 : Double) :=
  ⟨by decide, by decide,
    sequential_parallel_within_tolerance_of_finite 2 [[1.5, 2.0], [3.0, 4.0]] [[5.0, 6.0], [7.0, 0.1]]
      (by decide) (by decide)⟩

/-- Claim C10: For every pair of `n`-by-`n` matrices `A` and `B` over any entry type with any
zero, addition and multiplication (no associativity or commutativity assumed), the
(i, k, j) loop of `multiplyMatrices` and the per-cell (i, j, k) loop of
`multiplyMatricesParallel` return the same matrix, each cell being the left-to-right
accumulation `((0 + A[i][0]*B[0][j]) + A[i][1]*B[1][j]) + ...` with `k` ascending. -/
theorem sequential_parallel_identical {β : Type} [Zero β] [Add β] [Mul β] (n : Nat)
    (A B : Matrix β) (hA : IsSquare n A) (hB : IsSquare n B) :
    (∃ C, multiplyMatrices A B = some C ∧ multiplyMatricesParallel true A B = some C ∧
      IsSquare n C ∧
      ∀ i j, i < n → j < n →
        readCell C i j = some (accumulate (entry A) (entry B) n i j 0))
    ∧ (∀ (a b : Nat → Nat → β) (m i j : Nat) (init : β),
        accumulate a b 0 i j init = init ∧
        accumulate a b (m + 1) i j init = accumulate a b m i j init + a i m * b m j) := by
  refine ⟨⟨_, multiplyMatrices_of_isSquare n A B hA hB,
    multiplyMatricesParallel_of_isSquare true n A B hA hB, isSquare_build n _, ?_⟩, ?_⟩
  · intro i j hi hj
    exact readCell_build n _ i j hi hj
  · intro a b m i j init
    exact ⟨accumulate_zero a b i j init, accumulate_succ a b m i j init⟩

theorem sequential_parallel_identical_witness :
    IsSquare 2 ([[1, 2], [3, 4]] : Matrix ℤ) ∧ IsSquare 2 ([[5, 6], [7, 8]] : Matrix ℤ) ∧
    ∃ C, multiplyMatrices ([[1, 2], [3, 4]] : Matrix ℤ) [[5, 6], [7, 8]] = some C ∧
      multiplyMatricesParallel true ([[1, 2], [3, 4]] : Matrix ℤ) [[5, 6], [7, 8]] = some C ∧
      IsSquare 2 C ∧
      ∀ i j, i < 2 → j < 2 →
        readCell C i j = some (accumulate (entry ([[1, 2], [3, 4]] : Matrix ℤ))
          (entry ([[5, 6], [7, 8]] : Matrix ℤ)) 2 i j 0) :=
  ⟨by decide, by decide,
    (sequential_parallel_identical 2 ([[1, 2], [3, 4]] : Matrix ℤ) [[5, 6], [7, 8]]
      (by decide) (by decide)).1⟩

/-- Claim C7: For every `n` and every `n`-by-`n` matrix `A` of exact numbers, with `I` the
`n`-by-`n` identity matrix, `multiplyMatrices A I` and `multiplyMatrices I A` both
return `A`. -/
theorem multiplyMatrices_identity (n : Nat) (A : Matrix ℚ) (hA : IsSquare n A) :
    multiplyMatrices A (identityMatrix n) = some A ∧
    multiplyMatrices (identityMatrix n) A = some A := by
  constructor
  · rw [multiplyMatrices_of_isSquare n A _ hA (isSquare_identityMatrix n)]
    conv_rhs => rw [eq_build_of_isSquare n A hA]
    congr 1
    apply build_congr
    intro i j hi hj
    rw [accumulate_eq_sum, zero_add]
    have h : ∀ k ∈ Finset.range n,
        entry A i k * entry (identityMatrix n : Matrix ℚ) k j
          = if k = j then entry A i j else 0 := by
      intro k hk
      rw [identityMatrix, entry_build n _ k j (Finset.mem_range.1 hk) hj]
      by_cases h : k = j
      · subst h; simp
      · simp [h]
    rw [Finset.sum_congr rfl h, Finset.sum_ite_eq']
    simp [hj]
  · rw [multiplyMatrices_of_isSquare n _ A (isSquare_identityMatrix n) hA]
    conv_rhs => rw [eq_build_of_isSquare n A hA]
    congr 1
    apply build_congr
    intro i j hi hj
    rw [accumulate_eq_sum, zero_add]
    have h : ∀ k ∈ Finset.range n,
        entry (identityMatrix n : Matrix ℚ) i k * entry A k j
          = if i = k then entry A i j else 0 := by
      intro k hk
      rw [identityMatrix, entry_build n _ i k hi (Finset.mem_range.1 hk)]
      by_cases h : i = k
      · subst h; simp
      · simp [h]
    rw [Finset.sum_congr rfl h, Finset.sum_ite_eq]
    simp [hi]

theorem multiplyMatrices_identity_witness :
    IsSquare 2 ([[1, 2], [3, 4]] : Matrix ℚ) ∧
    multiplyMatrices ([[1, 2], [3, 4]] : Matrix ℚ) (identityMatrix 2)
      = some [[1, 2], [3, 4]] ∧
    multiplyMatrices (identityMatrix 2) ([[1, 2], [3, 4]] : Matrix ℚ)
      = some [[1, 2], [3, 4]] :=
  ⟨by decide, multiplyMatrices_identity 2 [[1, 2], [3, 4]] (by decide)⟩

/-- Claim C8, as stated, at an infinite entry: for `A = [[inf]]` and `Z = [[0]]` the
product `inf * 0` is NaN, so `multiplyMatrices A Z` and `multiplyMatrices Z A` both return
`[[NaN]]`, which is not the zero matrix. -/
theorem multiplyMatrices_zero_infinity_counterexample :
    IsSquare 1 ([[Double.infinity false]] : Matrix Double) ∧
    multiplyMatrices ([[Double.infinity false]] : Matrix Double) (zeroMatrix 1)
      = some [[Double.nan]] ∧
    multiplyMatrices (zeroMatrix 1) ([[Double.infinity false]] : Matrix Double)
      = some [[Double.nan]] ∧
    ([[Double.nan]] : Matrix Double) ≠ zeroMatrix 1 :=
  ⟨by decide, by decide!, by decide!, by decide!⟩

/-- Claim C8, amended: for every `n` and every `n`-by-`n` matrix `A` of doubles whose
entries are all finite (neither an infinity nor NaN), with `Z` the `n`-by-`n` all-zero
matrix, `multiplyMatrices A Z` and `multiplyMatrices Z A` both return the `n`-by-`n`
matrix whose every entry is exactly `0`. -/
theorem multiplyMatrices_zero_of_finite (n : Nat) (A : Matrix Double) (hA : IsSquare n A)
    (hfin : ∀ i < n, ∀ j < n, (entry A i j).isFinite = true) :
    multiplyMatrices A (zeroMatrix n) = some (zeroMatrix n) ∧
    multiplyMatrices (zeroMatrix n) A = some (zeroMatrix n) ∧
    (zeroMatrix n : Matrix Double) = List.replicate n (List.replicate n (Double.finite 0)) := by
  refine ⟨?_, ?_, rfl⟩
  · rw [multiplyMatrices_of_isSquare n A _ hA (isSquare_zeroMatrix n)]
    conv_rhs => rw [zeroMatrix_eq_build]
    congr 1
    apply build_congr
    intro i j hi _
    exact accumulate_mul_zero _ _ n i j (fun k hk => hfin i hi k hk)
      (fun k _ => entry_zeroMatrix n k j)
  · rw [multiplyMatrices_of_isSquare n _ A (isSquare_zeroMatrix n) hA]
    conv_rhs => rw [zeroMatrix_eq_build]
    congr 1
    apply build_congr
    intro i j _ hj
    exact accumulate_zero_mul _ _ n i j (fun k _ => entry_zeroMatrix n i k)
      (fun k hk => hfin k hk j hj)

theorem multiplyMatrices_zero_of_finite_witness :
    IsSquare 2 ([[1.5, Double.finite (-2)], [3e200, 0.1]] : Matrix Double) ∧
    (∀ i < 2, ∀ j < 2,
      (entry ([[1.5, Double.finite (-2)], [3e200, 0.1]] : Matrix Double) i j).isFinite = true) ∧
    multiplyMatrices ([[1.5, Double.finite (-2)], [3e200, 0.1]] : Matrix Double) (zeroMatrix 2)
      = some (zeroMatrix 2) ∧
    multiplyMatrices (zeroMatrix 2) ([[1.5, Double.finite (-2)], [3e200, 0.1]] : Matrix Double)
      = some (zeroMatrix 2) ∧
    (zeroMatrix 2 : Matrix Double) = List.replicate 2 (List.replicate 2 (Double.finite 0)) :=
  ⟨by decide, by decide!,
    multiplyMatrices_zero_of_finite 2 [[1.5, Double.finite (-2)], [3e200, 0.1]] (by decide) (by decide!)⟩

/-! ## The claims about comparison and verification -/

/-- Claim C4, at an input on which the comparison fails. The first cell differs by `1`,
which exceeds the tolerance, so the function returns `false` at once with
`max_diff = 1`, although cell `(1, 1)` differs by `5`: the reported value is not the
maximum over all cells. -/
theorem compareMatrices_max_diff_after_early_return :
    compareMatrices ([[1, 0], [0, 5]] : Matrix ℚ) [[0, 0], [0, 0]] (1 / 100000000) (-1)
      = some (false, 1)
    ∧ |entry ([[1, 0], [0, 5]] : Matrix ℚ) 1 1 - entry ([[0, 0], [0, 0]] : Matrix ℚ) 1 1| = 5
    ∧ IsSquare 2 ([[1, 0], [0, 5]] : Matrix ℚ) ∧ IsSquare 2 ([[0, 0], [0, 0]] : Matrix ℚ) :=
  ⟨by decide!, by decide!, by decide, by decide⟩

/-- Claim C5: For every `C1` and `C2` whose sizes differ, over any entry type,
`compareMatrices` returns `false` for every tolerance and leaves `max_diff` at exactly
the value passed in. -/
theorem compareMatrices_size_mismatch {β : Type} [Zero β] [Sub β] [StdAbs β] [LT β]
    [∀ a b : β, Decidable (a < b)] (C1 C2 : Matrix β) (tolerance max_diff : β)
    (h : C1.length ≠ C2.length) :
    compareMatrices C1 C2 tolerance max_diff = some (false, max_diff) := by
  simp [compareMatrices, h]

theorem compareMatrices_size_mismatch_witness :
    ([[1, 2], [3, 4]] : Matrix ℚ).length ≠ ([[1]] : Matrix ℚ).length ∧
    compareMatrices ([[1, 2], [3, 4]] : Matrix ℚ) [[1]] 100 7 = some (false, 7) :=
  ⟨by decide, compareMatrices_size_mismatch [[1, 2], [3, 4]] [[1]] 100 7 (by decide)⟩

/-- Claim C6: For every pair of `n`-by-`n` matrices `A` and `B`, `verifyResult A B C max_diff`
equals `compareMatrices C (multiplyMatrices A B) 1e-8 max_diff` for every `C`; with
`C = multiplyMatrices A B` it returns `true` and sets `max_diff` to `0`, as it does for
`A = [[3]]`, `B = [[4]]` and for `A = [[1,2],[3,4]]`, `B = [[5,6],[7,8]]`. -/
theorem verifyResult_spec (n : Nat) (A B : Matrix ℚ) (max_diff : ℚ)
    (hA : IsSquare n A) (hB : IsSquare n B) :
    (∃ E, multiplyMatrices A B = some E ∧
      (∀ C, verifyResult A B C max_diff = compareMatrices C E (1 / 100000000) max_diff) ∧
      verifyResult A B E max_diff = some (true, 0))
    ∧ verifyResult [[3]] [[4]] [[12]] max_diff = some (true, 0)
    ∧ verifyResult [[1, 2], [3, 4]] [[5, 6], [7, 8]] [[19, 22], [43, 50]] max_diff
        = some (true, 0) := by
  have key : ∀ (m : Nat) (X Y E : Matrix ℚ), IsSquare m X → IsSquare m Y →
      multiplyMatrices X Y = some E → verifyResult X Y E max_diff = some (true, 0) := by
    intro m X Y E hX hY hE
    have hsq : IsSquare m E := by
      rw [multiplyMatrices_of_isSquare m X Y hX hY] at hE
      rw [← Option.some.inj hE]
      exact isSquare_build m _
    rw [verifyResult_of_product X Y E E max_diff hE, tolerance_rat]
    exact compareMatrices_self m E (1 / 100000000) max_diff hsq (by norm_num)
  refine ⟨⟨_, multiplyMatrices_of_isSquare n A B hA hB, ?_, ?_⟩, ?_, ?_⟩
  · intro C
    rw [verifyResult_of_product A B C _ max_diff (multiplyMatrices_of_isSquare n A B hA hB),
      tolerance_rat]
  · exact key n A B _ hA hB (multiplyMatrices_of_isSquare n A B hA hB)
  · exact key 1 [[3]] [[4]] [[12]] (by decide) (by decide) (by decide!)
  · exact key 2 [[1, 2], [3, 4]] [[5, 6], [7, 8]] [[19, 22], [43, 50]] (by decide) (by decide)
      (by decide!)

theorem verifyResult_spec_witness :
    IsSquare 2 ([[1, 2], [3, 4]] : Matrix ℚ) ∧ IsSquare 2 ([[5, 6], [7, 8]] : Matrix ℚ) ∧
    ∃ E, multiplyMatrices ([[1, 2], [3, 4]] : Matrix ℚ) [[5, 6], [7, 8]] = some E ∧
      (∀ C, verifyResult [[1, 2], [3, 4]] [[5, 6], [7, 8]] C (-1)
        = compareMatrices C E (1 / 100000000) (-1)) ∧
      verifyResult [[1, 2], [3, 4]] [[5, 6], [7, 8]] E (-1) = some (true, 0) :=
  ⟨by decide, by decide,
    (verifyResult_spec 2 [[1, 2], [3, 4]] [[5, 6], [7, 8]] (-1) (by decide) (by decide)).1⟩

/-! ## The claim about the parallel loop -/

/-- Claim C9: in the OpenMP branch of `multiplyMatricesParallel` a step of iteration
`(i, j)` changes no cell of `C` other than `(i, j)` (the inputs `A` and `B` are never
written: they are not part of the state), so distinct iterations never write the same
cell; and for every `n`, every pair of `n`-by-`n` matrices and every schedule that
interleaves the steps of the `n * n` iterations in any order, the execution completes
with `C` equal to the result of the loop run in program order. -/
theorem parallel_iterations_independent {β : Type} [Zero β] [Add β] [Mul β] (n : Nat)
    (A B : Matrix β) (hA : IsSquare n A) (hB : IsSquare n B)
    (schedule : List (Nat × Nat))
    (hvalid : ∀ p ∈ schedule, p.1 < n ∧ p.2 < n)
    (hcount : ∀ i < n, ∀ j < n, schedule.count (i, j) = n + 1) :
    (∀ (st st' : ParallelState β) (i j r c : Nat),
        stepIteration A B n st i j = some st' → (r, c) ≠ (i, j) →
        readCell st'.C r c = readCell st.C r c)
    ∧ ∃ st, runSchedule A B n schedule (initialState n) = some st ∧
        multiplyMatricesParallel true A B = some st.C := by
  refine ⟨fun st st' i j r c h hne => stepIteration_footprint A B n st st' i j r c h hne, ?_⟩
  obtain ⟨st, h1, h2⟩ := runSchedule_build (entry A) (entry B) n schedule hvalid
    (fun i j hi hj => hcount i hi j hj)
  rw [← eq_build_of_isSquare n A hA, ← eq_build_of_isSquare n B hB] at h1
  exact ⟨st, h1, by rw [h2]; exact multiplyMatricesParallel_of_isSquare true n A B hA hB⟩

theorem parallel_iterations_independent_witness :
    IsSquare 2 ([[1, 2], [3, 4]] : Matrix ℚ) ∧ IsSquare 2 ([[5, 6], [7, 8]] : Matrix ℚ) ∧
    (∀ p ∈ [(0, 0), (1, 1), (0, 1), (1, 1), (1, 0), (0, 0), (0, 1), (0, 1), (1, 0), (1, 0),
        (1, 1), (0, 0)], p.1 < 2 ∧ p.2 < 2) ∧
    (∀ i < 2, ∀ j < 2,
      [(0, 0), (1, 1), (0, 1), (1, 1), (1, 0), (0, 0), (0, 1), (0, 1), (1, 0), (1, 0),
        (1, 1), (0, 0)].count (i, j) = 2 + 1) ∧
    ((∀ (st st' : ParallelState ℚ) (i j r c : Nat),
        stepIteration [[1, 2], [3, 4]] [[5, 6], [7, 8]] 2 st i j = some st' →
        (r, c) ≠ (i, j) → readCell st'.C r c = readCell st.C r c)
    ∧ ∃ st, runSchedule ([[1, 2], [3, 4]] : Matrix ℚ) [[5, 6], [7, 8]] 2
          [(0, 0), (1, 1), (0, 1), (1, 1), (1, 0), (0, 0), (0, 1), (0, 1), (1, 0), (1, 0),
            (1, 1), (0, 0)] (initialState 2) = some st ∧
        multiplyMatricesParallel true ([[1, 2], [3, 4]] : Matrix ℚ) [[5, 6], [7, 8]]
          = some st.C) :=
  ⟨by decide, by decide, by decide, by decide,
    parallel_iterations_independent 2 [[1, 2], [3, 4]] [[5, 6], [7, 8]] (by decide) (by decide)
      _ (by decide) (by decide)⟩

end MatrixUtils
